import Mathlib

/-!
Verification of the libweif numerical core against its specification.

The development shallowly embeds the C++ sources of libweif:

* rational arithmetic (ℚ) models the exact floating-point value computations
  of the grid, spline and spectral-response layers (`uniform_grid`,
  `cubic_spline`, `spectral_response`, `angle_averaged`);
* real arithmetic (ℝ) models the transcendental evaluation paths
  (`sf::poly`, the weight-function constants and the radial integrand);
* out-of-range reads of the C++ containers (undefined behaviour) are made
  explicit by `Option`-returning indexing;
* C++ exceptions are modelled by `Except`.

Each embedded definition is translated from a specific function of the
sources, named in its doc comment.
-/

set_option autoImplicit false

namespace Weif

/-- Truncation toward zero of a rational number, as the C cast
`static_cast<long>` or the truncation used by `std::fmod`. -/
def qtrunc (q : ℚ) : ℤ :=
  if 0 ≤ q then ⌊q⌋ else ⌈q⌉

/-- The C `fmod(x, y) = x - trunc(x / y) * y`. -/
def qfmod (x y : ℚ) : ℚ :=
  x - (qtrunc (x / y) : ℚ) * y

/-- The triple held by `weif::uniform_grid` (origin, step, size); see
`src/src/sf/poly.cpp`, class `weif::uniform_grid`. -/
structure uniform_grid where
  origin : ℚ
  delta : ℚ
  size : ℕ
deriving DecidableEq, Repr

/-- `weif::detail::uniform_grid_fn::operator()(ind) = origin + ind * delta`. -/
def grid_value (g : uniform_grid) (i : ℕ) : ℚ :=
  g.origin + (i : ℚ) * g.delta

/-- The value `*values().crbegin()` used by `uniform_grid::intersect`, i.e.
the grid value at index `size - 1` (meaningful only for `size ≥ 1`;
the C++ read is undefined for an empty grid and is short-circuited away). -/
def last_value (g : uniform_grid) : ℚ :=
  grid_value g (g.size - 1)

/-- `weif::uniform_grid::match`: equal steps and equal `fmod(origin, delta)`. -/
def grid_match (a b : uniform_grid) : Prop :=
  a.delta = b.delta ∧ qfmod a.origin a.delta = qfmod b.origin b.delta

instance (a b : uniform_grid) : Decidable (grid_match a b) := by
  unfold grid_match; infer_instance

/-- The exception `weif::mismatched_grids`. -/
inductive grid_error where
  | mismatched_grids
deriving DecidableEq, Repr

/-- Body of `weif::uniform_grid::intersect` after the symmetric delegation,
see `src/src/sf/poly.cpp` lines 86-98: phase-match check, then
`new_size = 0` when either grid is empty or the ranges do not overlap, else
`(min(last, other.last) - other.origin) / delta` truncated, plus one. -/
def intersect_core (a b : uniform_grid) : Except grid_error uniform_grid :=
  if grid_match a b then
    let new_size : ℕ :=
      if a.size = 0 ∨ b.size = 0 ∨ last_value a < b.origin then 0
      else (qtrunc ((min (last_value a) (last_value b) - b.origin) / b.delta)).toNat + 1
    .ok ⟨b.origin, b.delta, new_size⟩
  else
    .error .mismatched_grids

/-- `weif::uniform_grid::intersect`: delegate symmetrically when the other
origin is smaller, so that the core body always sees `origin ≤ other.origin`. -/
def intersect (a b : uniform_grid) : Except grid_error uniform_grid :=
  if b.origin < a.origin then intersect_core b a else intersect_core a b

/-- `weif::uniform_grid::to_index(v) = static_cast<size_t>((v - origin) / delta)`. -/
def to_index (g : uniform_grid) (v : ℚ) : ℕ :=
  (qtrunc ((v - g.origin) / g.delta)).toNat

/-- The set of reals covered by the grid: empty for an empty grid, else the
closed interval from the origin to the last grid value.  Used to state the
specification sentence "size is 0 iff ranges are disjoint". -/
def grid_range (g : uniform_grid) : Set ℚ :=
  if g.size = 0 then ∅ else Set.Icc g.origin (last_value g)

/-- The exception `weif::non_uniform_grid{pos, actual, expected}`. -/
structure non_uniform_grid where
  pos : ℕ
  actual : ℚ
  expected : ℚ
deriving DecidableEq, Repr

/-- The pair held by `weif::detail::uniform_grid_fn` (origin, delta). -/
structure uniform_grid_fn where
  origin : ℚ
  delta : ℚ
deriving DecidableEq, Repr

/-- `weif::detail::uniform_grid_fn::operator()(ind)`. -/
def gfn_value (g : uniform_grid_fn) (i : ℕ) : ℚ :=
  g.origin + (i : ℚ) * g.delta

/-- The validation loop of `uniform_grid_fn::make_from_iterable`
(`src/include/spectral_response.h` lines 197-200): starting at index `i`,
each remaining value must equal `grid_fn(i)`, else `non_uniform_grid` is
thrown with the offending index, the actual and the expected value. -/
def mfi_loop (g : uniform_grid_fn) : ℕ → List ℚ → Except non_uniform_grid uniform_grid_fn
  | _, [] => .ok g
  | i, v :: rest =>
    if gfn_value g i = v then mfi_loop g (i + 1) rest
    else .error ⟨i, v, gfn_value g i⟩

/-- `weif::detail::uniform_grid_fn::make_from_iterable`
(`src/include/spectral_response.h` lines 184-203): the default functor is
`{0, 1}`; the first element sets the origin, the second sets the step, and
the remaining elements are validated from index 2 on. -/
def make_from_iterable : List ℚ → Except non_uniform_grid uniform_grid_fn
  | [] => .ok ⟨0, 1⟩
  | [v] => .ok ⟨v, 1⟩
  | v0 :: v1 :: rest => mfi_loop ⟨v0, v1 - v0⟩ 2 rest

/-- The boundary-condition variant of `weif::detail::cubic_spline`
(`src/src/weight_function_grid_2d.cpp` lines 112-136): first-order or
second-order endpoint data. -/
inductive boundary where
  | first_order (left right : ℚ)
  | second_order (left right : ℚ)
deriving DecidableEq, Repr

/-- The interior right-hand sides of the tridiagonal system,
`d(i-1) = 3 * (y(i+1) - 2 * y(i) + y(i-1))` for `1 ≤ i ≤ n-2`; see the
`d` expression of `cubic_spline::init_d2`. -/
def spline_rhs : List ℚ → List ℚ
  | a :: b :: c :: rest => 3 * (c - 2 * b + a) :: spline_rhs (b :: c :: rest)
  | _ => []

/-- The forward Thomas sweep of `cubic_spline::init_d2`: given the previous
`cprime` and `d2` entries, each interior right-hand side `d` produces
`cprime(i) = 0.5 / denom` and `d2(i) = (d - 0.5 * d2(i-1)) / denom` with
`denom = 2 - 0.5 * cprime(i-1)`. -/
def spline_sweep (cprev dprev : ℚ) : List ℚ → List (ℚ × ℚ)
  | [] => []
  | d :: rest =>
    let denom := 2 - (1 / 2 : ℚ) * cprev
    let c := (1 / 2 : ℚ) / denom
    let dd := (d - (1 / 2 : ℚ) * dprev) / denom
    (c, dd) :: spline_sweep c dd rest

/-- The back-substitution loop of `cubic_spline::init_d2`:
`d2(i-1) = d2(i-1) - cprime(i-1) * d2(i)` descending from the last entry. -/
def spline_back : List (ℚ × ℚ) → ℚ → List ℚ
  | [], dlast => [dlast]
  | (c, d) :: rest, dlast =>
    let t := spline_back rest dlast
    (d - c * t.headD 0) :: t

/-- `weif::detail::cubic_spline::init_d2`
(`src/src/weight_function_grid_2d.cpp` lines 150-193): boundary coefficients
`(first, last, d0, dn)` per boundary variant, forward sweep, right boundary
`d2(n-1) = (dn - last * d2(n-2)) / (2 - last * cprime(n-2))`, then
back substitution.  The constructor asserts `n > 1`; shorter inputs are
mapped to an empty vector here. -/
def init_d2 (y : List ℚ) (bc : boundary) : List ℚ :=
  match y with
  | y0 :: y1 :: _ =>
    let n := y.length
    let coeffs : ℚ × ℚ × ℚ × ℚ :=
      match bc with
      | .first_order l r => (1, 1, (y1 - y0 - l) * 6, (r - (y.getD (n - 1) 0 - y.getD (n - 2) 0)) * 6)
      | .second_order l r => (0, 0, l * 2, r * 2)
    let first := coeffs.1
    let last := coeffs.2.1
    let d0 := coeffs.2.2.1
    let dn := coeffs.2.2.2
    let pairs := (first / 2, d0 / 2) :: spline_sweep (first / 2) (d0 / 2) (spline_rhs y)
    let cl := (pairs.getLastD (0, 0)).1
    let dl := (pairs.getLastD (0, 0)).2
    let dlast := (dn - last * dl) / (2 - last * cl)
    spline_back pairs dlast
  | _ => []

/-- The state of `weif::detail::cubic_spline`: knot values and second
derivatives. -/
structure cubic_spline where
  values : List ℚ
  d2 : List ℚ
deriving DecidableEq, Repr

/-- The constructor of `weif::detail::cubic_spline`: store the values and
run `init_d2`. -/
def mk_cubic_spline (y : List ℚ) (bc : boundary) : cubic_spline :=
  ⟨y, init_d2 y bc⟩

/-- `weif::detail::cubic_spline::operator()`
(`src/src/weight_function_grid_2d.cpp` lines 209-221):
`idx = static_cast<size_t>(x)`, then the cubic Hermite-type combination of
`values_(idx)`, `values_(idx+1)`, `d2_(idx)`, `d2_(idx+1)`.  The C++ applies
unchecked `xtensor` indexing; reads past the stored arrays (and the
undefined cast of a negative value) are `none` here. -/
def spline_eval (s : cubic_spline) (x : ℚ) : Option ℚ :=
  if x < 0 then none
  else
    let idx : ℕ := ⌊x⌋.toNat
    match s.d2.get? idx, s.d2.get? (idx + 1), s.values.get? idx, s.values.get? (idx + 1) with
    | some a, some b, some y0, some y1 =>
      let delta0 := x - (idx : ℚ)
      let delta1 := 1 - delta0
      let d20 := a / 6
      let d21 := b / 6
      some (d20 * delta1 ^ 3 + d21 * delta0 ^ 3 + (y0 - d20) * delta1 + (y1 - d21) * delta0)
    | _, _, _, _ => none

/-- The state of `weif::spectral_response`: a wavelength grid and the
response values. -/
structure spectral_response where
  grid : uniform_grid
  data : List ℚ
deriving DecidableEq, Repr

/-- `weif::spectral_response::stack` (`src/unnamed/part_024` lines 167-179):
intersect the grids, slice both value arrays to the intersection via
`to_index`, store the elementwise product and adopt the intersected grid. -/
def stack (a b : spectral_response) : Except grid_error spectral_response :=
  match intersect a.grid b.grid with
  | .error e => .error e
  | .ok i_grid =>
    let idx := to_index a.grid i_grid.origin
    let other_idx := to_index b.grid i_grid.origin
    .ok ⟨i_grid,
      List.zipWith (fun x y => x * y)
        ((a.data.drop idx).take i_grid.size)
        ((b.data.drop other_idx).take i_grid.size)⟩

/-- The state of `weif::af::angle_averaged`: the `z` grid and the
precomputed spline. -/
structure angle_averaged where
  grid : uniform_grid
  af : cubic_spline
deriving DecidableEq, Repr

/-- The private constructor of `weif::af::angle_averaged`
(`src/include/weif/af/angle_averaged.h` lines 63-66): grid
`{0, 1/(N-1), N}` over the precomputed values, spline with clamped zero
first-derivative boundary. -/
def mk_angle_averaged (values : List ℚ) : angle_averaged :=
  ⟨⟨0, 1 / ((values.length : ℚ) - 1), values.length⟩,
   mk_cubic_spline values (.first_order 0 0)⟩

/-- `weif::af::angle_averaged::operator()(u)`
(`src/include/weif/af/angle_averaged.h` lines 73-77):
`z = (1/(1+u) - grid.origin) / grid.delta`, then the spline evaluation. -/
def angle_averaged_eval (a : angle_averaged) (u : ℚ) : Option ℚ :=
  spline_eval a.af ((1 / (1 + u) - a.grid.origin) / a.grid.delta)

/-- The literal `weif::math::Kolmogorov_Cn2_scale`
(`src/include/weif/math.h` line 44). -/
noncomputable def Kolmogorov_Cn2_scale : ℝ :=
  0.0096931507043123421456817216188956817

/-- The constant multiplier of `weif::detail::weight_function_base::operator()`
(`src/include/weif/detail/weight_function_base.h` line 47):
`Kolmogorov_Cn2_scale * (16 * 1e13) * PI * PI`. -/
noncomputable def weight_function_base_c : ℝ :=
  Kolmogorov_Cn2_scale * (16 * 1e13) * Real.pi * Real.pi

/-- The constant multiplier of `weif::weight_function_grid_2d::operator()`
(`src/include/weif/weight_function_grid_2d.h` line 166):
`9.69e-3 * 16 * PI * PI * 1e13`. -/
noncomputable def weight_function_grid_2d_c : ℝ :=
  9.69e-3 * 16 * Real.pi * Real.pi * 1e13

/-- A floating-point argument of the radial integrand: a finite real or the
IEEE infinity, against which the C++ integrand compares explicitly. -/
inductive fval where
  | fin (x : ℝ)
  | inf

/-- The radial integrand lambda of the 1-D `weif::weight_function`
constructor (`src/include/weif/weight_function.h` lines 145-160), with the
spectral filter abstracted as its two entry points `sfreg = SF.regular` and
`sf = SF` and the aperture filter as `af`:
`0` at `u = 0` and `u = inf`; `u^(4/3) * SF.regular(u*u) * AF(x*u)` for
`u < 1`; else `t * SF(u*u) * AF(x*u)` with `t = u^(-8/3)`, short-circuited
to `0` when `t == 0`. -/
noncomputable def radial_integrand (sfreg sf af : ℝ → ℝ) (u : fval) (x : ℝ) : ℝ :=
  match u with
  | .inf => 0
  | .fin u =>
    if u = 0 then 0
    else if u < 1 then u ^ ((4 : ℝ) / 3) * sfreg (u * u) * af (x * u)
    else
      let t := u ^ (-((8 : ℝ) / 3))
      if t = 0 then 0 else t * sf (u * u) * af (x * u)

/-- `weif::detail::weight_function_base::operator()`
(`src/include/weif/detail/weight_function_base.h` lines 42-53), with the
precomputed spline abstracted as `wf`:
`c * altitude^(5/6) / lambda^(7/6) * wf(z)` with
`z = (1/(1 + aperture_scale/fresnel_radius) - origin) / delta` and
`fresnel_radius = sqrt(lambda * altitude)`. -/
noncomputable def weight_function_base_eval (lambda aperture_scale origin delta : ℝ)
    (wf : ℝ → ℝ) (altitude : ℝ) : ℝ :=
  weight_function_base_c * altitude ^ ((5 : ℝ) / 6) / lambda ^ ((7 : ℝ) / 6) *
    wf ((1 / (1 + aperture_scale / Real.sqrt (lambda * altitude)) - origin) / delta)

/-- `weif::weight_function::operator()`
(`src/include/weif/weight_function.h` lines 85-90): the base evaluation
multiplied by `2 * PI`. -/
noncomputable def weight_function_eval (lambda aperture_scale origin delta : ℝ)
    (wf : ℝ → ℝ) (altitude : ℝ) : ℝ :=
  2 * Real.pi * weight_function_base_eval lambda aperture_scale origin delta wf altitude

/-- The result tensor of `weif::weight_function_grid_2d::operator()`:
its shape and its entries. -/
structure grid_2d_result where
  shape : ℕ × ℕ
  entry : ℕ → ℕ → ℝ

/-- `weif::weight_function_grid_2d::operator()`
(`src/include/weif/weight_function_grid_2d.h` lines 156-183), with the FFTW
REDFT00 plan abstracted as `dct` and the integrand kernel as `kern`:
a zero tensor of the configured shape at altitude 0, otherwise the kernel
tabulated on `linspace(0, nyquist, N)` in both axes, transformed in place,
and scaled by `c * fft_norm / lambda^(1/6) * altitude^(11/6)`. -/
noncomputable def weight_function_grid_2d_eval (lambda aperture_scale grid_step : ℝ)
    (nx ny : ℕ) (kern : ℝ → ℝ → ℝ → ℝ) (dct : (ℕ → ℕ → ℝ) → (ℕ → ℕ → ℝ))
    (altitude : ℝ) : grid_2d_result :=
  if altitude = 0 then ⟨(nx, ny), fun _ _ => 0⟩
  else
    let fresnel_radius := Real.sqrt (lambda * altitude)
    let nyquist := fresnel_radius / grid_step / 2
    let ux := fun i : ℕ => (i : ℝ) * nyquist / ((nx : ℝ) - 1)
    let uy := fun j : ℕ => (j : ℝ) * nyquist / ((ny : ℝ) - 1)
    let tab := fun i j => kern (ux i) (uy j) (aperture_scale / fresnel_radius)
    let fft_norm := 1 / (4 * ((nx - 1 : ℕ) : ℝ) * ((ny - 1 : ℕ) : ℝ) * grid_step * grid_step)
    ⟨(nx, ny), fun i j =>
      dct tab i j * (weight_function_grid_2d_c * fft_norm / lambda ^ ((1 : ℝ) / 6) *
        altitude ^ ((11 : ℝ) / 6))⟩

/-- A real-valued uniform grid, as held by `weif::sf::poly` (origin, step,
size over the working floating type). -/
structure rgrid where
  origin : ℝ
  delta : ℝ
  size : ℕ

/-- The last grid value `*values().crbegin()` of a real grid, used by the
comparison `operator<=(grid, scalar)` of `weif::uniform_grid`. -/
noncomputable def rlast (g : rgrid) : ℝ :=
  g.origin + ((g.size - 1 : ℕ) : ℝ) * g.delta

/-- The state of `weif::sf::poly` (`src/include/weif/sf/poly.h` lines
60-66): frequency grid, the two interpolants (abstracted as real functions,
their pointwise behaviour being the cubic-spline layer verified
separately), the carrier and the stored equivalent wavelength. -/
structure polyf where
  grid : rgrid
  re : ℝ → ℝ
  im : ℝ → ℝ
  carrier : ℝ
  equiv_lambda : ℝ

/-- The private delta-constructor chain of `weif::sf::poly`
(`src/include/weif/sf/poly.h` lines 81-94): the grid is
`{0, delta, size}`; the stored equivalent wavelength is the result of the
`eval_equiv_lambda` quadrature, taken as a parameter here. -/
def poly_of_delta (delta : ℝ) (size : ℕ) (re im : ℝ → ℝ) (carrier equiv_lambda : ℝ) : polyf :=
  ⟨⟨0, delta, size⟩, re, im, carrier, equiv_lambda⟩

/-- `weif::sf::poly::operator()` (`src/include/weif/sf/poly.h` lines
138-168): `0` when `grid() <= |x|` (i.e. the last grid value is at most
`|x|`), else `(sin(cx) * real(dx) - cos(cx) * imag(dx))^2` with
`cx = |x| * (PI * carrier)` and `dx = (|x|/2 - origin) / delta`. -/
noncomputable def poly_eval (p : polyf) (x : ℝ) : ℝ :=
  let ax := |x|
  if rlast p.grid ≤ ax then 0
  else
    let c := Real.pi * p.carrier
    let cx := ax * c
    let dx := (ax / 2 - p.grid.origin) / p.grid.delta
    (Real.sin cx * p.re dx - Real.cos cx * p.im dx) ^ 2

/-- Modelled from the spec: the value the claim asserts for an in-grid
query, `(sin(cx) * real(d) - cos(cx) * imag(d))^2` with
`cx = PI * carrier * |x|` and `d = (|x|/2 - grid.origin) / grid.delta`. -/
noncomputable def poly_claim_formula (p : polyf) (x : ℝ) : ℝ :=
  (Real.sin (Real.pi * p.carrier * |x|) * p.re ((|x| / 2 - p.grid.origin) / p.grid.delta) -
    Real.cos (Real.pi * p.carrier * |x|) * p.im ((|x| / 2 - p.grid.origin) / p.grid.delta)) ^ 2

/-- Modelled from the spec: the queried frequency lies outside the grid,
i.e. outside the closed interval from the origin to the last grid value. -/
noncomputable def poly_outside (p : polyf) (x : ℝ) : Prop :=
  |x| ∉ Set.Icc p.grid.origin (rlast p.grid)

/-- `weif::sf::poly::normalize` (`src/include/weif/sf/poly.h` lines
264-275): with `lambda_0 = equiv_lambda()`, the grid is multiplied by
`lambda_0`, the carrier and the stored equivalent wavelength are divided by
it, and both splines are scaled by it (scaling a spline scales its values
and second derivatives, hence its interpolant pointwise). -/
noncomputable def poly_normalize (p : polyf) : polyf :=
  let lambda_0 := p.equiv_lambda
  { grid := ⟨p.grid.origin * lambda_0, p.grid.delta * lambda_0, p.grid.size⟩
    re := fun t => lambda_0 * p.re t
    im := fun t => lambda_0 * p.im t
    carrier := p.carrier / lambda_0
    equiv_lambda := p.equiv_lambda / lambda_0 }

/-- The concrete polychromatic filter used as counterexample input: grid
`{0, 1, 2}` (as produced by the delta constructor), zero real interpolant,
constant imaginary interpolant `1/2`, carrier 1, equivalent wavelength 1. -/
noncomputable def poly_example : polyf :=
  poly_of_delta 1 2 (fun _ => 0) (fun _ => 1 / 2) 1 1

/-- The concrete polychromatic filter used as counterexample input for the
normalisation claim: delta constructor with step 1, size 2, zero
interpolants, carrier 1 and equivalent wavelength 2. -/
noncomputable def poly_example_2 : polyf :=
  poly_of_delta 1 2 (fun _ => 0) (fun _ => 0) 1 2

/-- Helper: phase matching is symmetric. -/
lemma grid_match_symm {a b : uniform_grid} : grid_match a b ↔ grid_match b a := by
  unfold grid_match
  constructor
  · rintro ⟨h1, h2⟩
    exact ⟨h1.symm, h2.symm⟩
  · rintro ⟨h1, h2⟩
    exact ⟨h1.symm, h2.symm⟩

/-- Helper: with a positive step, the origin never exceeds the last grid
value (for an empty grid `last_value` degenerates to the origin). -/
lemma origin_le_last_value (g : uniform_grid) (hd : 0 < g.delta) :
    g.origin ≤ last_value g := by
  unfold last_value grid_value
  have : (0 : ℚ) ≤ ((g.size - 1 : ℕ) : ℚ) * g.delta :=
    mul_nonneg (Nat.cast_nonneg _) hd.le
  linarith

/-- Helper: a phase mismatch makes the core intersection body throw. -/
lemma intersect_core_mismatch (a b : uniform_grid) (h : ¬ grid_match a b) :
    intersect_core a b = .error .mismatched_grids := by
  unfold intersect_core
  rw [if_neg h]

/-- Helper: under a phase match the core intersection body returns the
other origin and step with the computed size. -/
lemma intersect_core_ok_of_match (a b : uniform_grid) (h : grid_match a b) :
    intersect_core a b = .ok ⟨b.origin, b.delta,
      if a.size = 0 ∨ b.size = 0 ∨ last_value a < b.origin then 0
      else (qtrunc ((min (last_value a) (last_value b) - b.origin) / b.delta)).toNat + 1⟩ := by
  unfold intersect_core
  rw [if_pos h]

/-- Helper: the computed intersection size vanishes exactly when the two
covered ranges are disjoint, given ordered origins and positive steps. -/
lemma core_size_eq_zero_iff (a b : uniform_grid) (ha : 0 < a.delta) (hb : 0 < b.delta)
    (hab : a.origin ≤ b.origin) :
    ((if a.size = 0 ∨ b.size = 0 ∨ last_value a < b.origin then 0
      else (qtrunc ((min (last_value a) (last_value b) - b.origin) / b.delta)).toNat + 1) = 0
     ↔ Disjoint (grid_range a) (grid_range b)) := by
  by_cases hc : a.size = 0 ∨ b.size = 0 ∨ last_value a < b.origin
  · rw [if_pos hc]
    simp only [true_iff]
    rcases hc with h0 | h0 | h0
    · rw [Set.disjoint_left]
      intro x hx
      rw [grid_range, if_pos h0] at hx
      exact absurd hx (Set.not_mem_empty x)
    · rw [Set.disjoint_right]
      intro x hx
      rw [grid_range, if_pos h0] at hx
      exact absurd hx (Set.not_mem_empty x)
    · rw [Set.disjoint_left]
      intro x hxa hxb
      rw [grid_range] at hxa hxb
      split_ifs at hxa hxb
      · exact absurd hxa (Set.not_mem_empty x)
      · exact absurd hxa (Set.not_mem_empty x)
      · exact absurd hxb (Set.not_mem_empty x)
      · have h1 : x ≤ last_value a := hxa.2
        have h2 : b.origin ≤ x := hxb.1
        linarith
  · rw [if_neg hc]
    push_neg at hc
    obtain ⟨hna, hnb, hcov⟩ := hc
    constructor
    · intro h
      exact absurd h (Nat.succ_ne_zero _)
    · intro hd
      exfalso
      have hmemA : b.origin ∈ grid_range a := by
        rw [grid_range, if_neg hna]
        exact ⟨hab, hcov⟩
      have hmemB : b.origin ∈ grid_range b := by
        rw [grid_range, if_neg hnb]
        exact ⟨le_refl _, origin_le_last_value b hb⟩
      exact Set.disjoint_left.mp hd hmemA hmemB

/-- Helper: with equal origins and a phase match, the core intersection
body is symmetric in its arguments. -/
lemma intersect_core_comm_of_origin_eq (a b : uniform_grid) (h : grid_match a b)
    (hab : a.origin = b.origin) (ha : 0 < a.delta) :
    intersect_core a b = intersect_core b a := by
  have hd : a.delta = b.delta := h.1
  have hb : 0 < b.delta := hd ▸ ha
  rw [intersect_core_ok_of_match a b h, intersect_core_ok_of_match b a (grid_match_symm.mp h)]
  have h3a : ¬ last_value a < b.origin := by
    rw [← hab]
    exact not_lt.mpr (origin_le_last_value a ha)
  have h3b : ¬ last_value b < a.origin := by
    rw [hab]
    exact not_lt.mpr (origin_le_last_value b hb)
  have hcond : (a.size = 0 ∨ b.size = 0 ∨ last_value a < b.origin) ↔
      (b.size = 0 ∨ a.size = 0 ∨ last_value b < a.origin) := by
    tauto
  refine congrArg Except.ok ?_
  simp only [uniform_grid.mk.injEq]
  refine ⟨hab.symm, hd.symm, ?_⟩
  rw [if_congr hcond rfl ?_]
  rw [min_comm, hab, hd]

/-- C6: for grids with positive steps, a phase mismatch makes `intersect`
throw `mismatched_grids`; under a phase match the intersection is symmetric
and its size is 0 exactly when the covered ranges of the two grids are
disjoint. -/
theorem uniform_grid_intersect_spec (a b : uniform_grid)
    (ha : 0 < a.delta) (hb : 0 < b.delta) :
    (¬ grid_match a b → intersect a b = .error .mismatched_grids) ∧
    (grid_match a b → ∃ g, intersect a b = .ok g ∧ intersect b a = .ok g ∧
      (g.size = 0 ↔ Disjoint (grid_range a) (grid_range b))) := by
  constructor
  · intro h
    unfold intersect
    split_ifs
    · exact intersect_core_mismatch b a (fun hm => h (grid_match_symm.mpr hm))
    · exact intersect_core_mismatch a b h
  · intro h
    rcases lt_trichotomy a.origin b.origin with hlt | heq | hgt
    · have e1 : intersect a b = intersect_core a b := by
        unfold intersect
        rw [if_neg (not_lt.mpr hlt.le)]
      have e2 : intersect b a = intersect_core a b := by
        unfold intersect
        rw [if_pos hlt]
      refine ⟨_, e1.trans (intersect_core_ok_of_match a b h), e2.trans (intersect_core_ok_of_match a b h), ?_⟩
      exact core_size_eq_zero_iff a b ha hb hlt.le
    · have e1 : intersect a b = intersect_core a b := by
        unfold intersect
        rw [if_neg (not_lt.mpr heq.le)]
      have e2 : intersect b a = intersect_core b a := by
        unfold intersect
        rw [if_neg (not_lt.mpr heq.ge)]
      have ecomm := intersect_core_comm_of_origin_eq a b h heq ha
      refine ⟨_, e1.trans (intersect_core_ok_of_match a b h),
        (e2.trans ecomm.symm).trans (intersect_core_ok_of_match a b h), ?_⟩
      exact core_size_eq_zero_iff a b ha hb heq.le
    · have e1 : intersect a b = intersect_core b a := by
        unfold intersect
        rw [if_pos hgt]
      have e2 : intersect b a = intersect_core b a := by
        unfold intersect
        rw [if_neg (not_lt.mpr hgt.le)]
      refine ⟨_, e1.trans (intersect_core_ok_of_match b a (grid_match_symm.mp h)),
        e2.trans (intersect_core_ok_of_match b a (grid_match_symm.mp h)), ?_⟩
      rw [disjoint_comm]
      exact core_size_eq_zero_iff b a hb ha hgt.le

/-- Witness for C6 at two overlapping phase-matched grids. -/
theorem uniform_grid_intersect_spec_witness :
    ∃ g, intersect ⟨0, 1, 3⟩ ⟨1, 1, 3⟩ = .ok g ∧ intersect ⟨1, 1, 3⟩ ⟨0, 1, 3⟩ = .ok g ∧
      (g.size = 0 ↔ Disjoint (grid_range ⟨0, 1, 3⟩) (grid_range ⟨1, 1, 3⟩)) :=
  (uniform_grid_intersect_spec ⟨0, 1, 3⟩ ⟨1, 1, 3⟩ (by norm_num) (by norm_num)).2
    (by norm_num [grid_match, qfmod, qtrunc])

/-- Helper: truncation toward zero is the identity on integers. -/
lemma qtrunc_intCast (m : ℤ) : qtrunc ((m : ℚ)) = m := by
  unfold qtrunc
  split_ifs with h
  · exact Int.floor_intCast m
  · exact Int.ceil_intCast m

/-- Helper: phase-matched grids have origins that differ by an integer
number of steps. -/
lemma grid_match_offset (a b : uniform_grid) (h : grid_match a b) :
    ∃ m : ℤ, b.origin - a.origin = (m : ℚ) * a.delta := by
  obtain ⟨hd, hmod⟩ := h
  unfold qfmod at hmod
  rw [hd] at hmod ⊢
  refine ⟨qtrunc (b.origin / b.delta) - qtrunc (a.origin / b.delta), ?_⟩
  push_cast
  linear_combination -hmod

/-- Helper: under a phase match, ordered origins, positive step and
overlapping ranges, the core intersection returns a grid aligned on both
input grids, whose extent fits inside both stored value arrays. -/
lemma core_result_bounds (aa bb : uniform_grid) (h : grid_match aa bb)
    (hd : 0 < aa.delta) (hab : aa.origin ≤ bb.origin)
    (hnd : ¬ Disjoint (grid_range aa) (grid_range bb)) :
    ∃ (m : ℕ) (ig : uniform_grid), intersect_core aa bb = .ok ig ∧
      ig.origin = bb.origin ∧ ig.delta = bb.delta ∧
      to_index aa bb.origin = m ∧ to_index bb bb.origin = 0 ∧
      m + ig.size ≤ aa.size ∧ ig.size ≤ bb.size ∧
      (∀ k : ℕ, grid_value aa (m + k) = grid_value ig k) ∧
      (∀ k : ℕ, grid_value bb k = grid_value ig k) := by
  have hdb : bb.delta = aa.delta := h.1.symm
  have hbd : 0 < bb.delta := by rw [hdb]; exact hd
  have hiff := core_size_eq_zero_iff aa bb hd hbd hab
  by_cases hc : aa.size = 0 ∨ bb.size = 0 ∨ last_value aa < bb.origin
  · exact absurd (hiff.mp (by rw [if_pos hc])) hnd
  push_neg at hc
  obtain ⟨hna0, hnb0, hcov⟩ := hc
  have hna1 : 1 ≤ aa.size := Nat.pos_of_ne_zero hna0
  have hnb1 : 1 ≤ bb.size := Nat.pos_of_ne_zero hnb0
  obtain ⟨mz, hmz⟩ := grid_match_offset aa bb h
  have hmz0 : 0 ≤ mz := by
    by_contra hneg
    push_neg at hneg
    have h1 : (mz : ℚ) < 0 := by exact_mod_cast hneg
    nlinarith [hmz, hab, hd]
  have hmzle : mz ≤ ((aa.size - 1 : ℕ) : ℤ) := by
    have h1 : (mz : ℚ) * aa.delta ≤ ((aa.size - 1 : ℕ) : ℚ) * aa.delta := by
      have h2 : last_value aa - aa.origin = ((aa.size - 1 : ℕ) : ℚ) * aa.delta := by
        unfold last_value grid_value
        ring
      have h3 : bb.origin - aa.origin ≤ last_value aa - aa.origin := by linarith
      rw [hmz] at h3
      rw [h2] at h3
      exact h3
    have h4 : (mz : ℚ) ≤ ((aa.size - 1 : ℕ) : ℚ) := le_of_mul_le_mul_right h1 hd
    exact_mod_cast h4
  have hq : (min (last_value aa) (last_value bb) - bb.origin) / bb.delta =
      ((min (((aa.size - 1 : ℕ) : ℤ) - mz) ((bb.size - 1 : ℕ) : ℤ) : ℤ) : ℚ) := by
    have e1 : last_value aa - bb.origin = (((aa.size - 1 : ℕ) : ℚ) - (mz : ℚ)) * aa.delta := by
      unfold last_value grid_value
      linear_combination -hmz
    have e2 : last_value bb - bb.origin = ((bb.size - 1 : ℕ) : ℚ) * aa.delta := by
      unfold last_value grid_value
      rw [hdb]
      ring
    rw [← min_sub_sub_right, e1, e2, hdb, ← min_div_div_right hd.le,
      mul_div_cancel_right₀ _ hd.ne', mul_div_cancel_right₀ _ hd.ne']
    push_cast
    rfl
  have hqtrunc : qtrunc ((min (last_value aa) (last_value bb) - bb.origin) / bb.delta) =
      min (((aa.size - 1 : ℕ) : ℤ) - mz) ((bb.size - 1 : ℕ) : ℤ) := by
    rw [hq, qtrunc_intCast]
  have hS0 : 0 ≤ min (((aa.size - 1 : ℕ) : ℤ) - mz) ((bb.size - 1 : ℕ) : ℤ) := by
    omega
  have hccond : ¬ (aa.size = 0 ∨ bb.size = 0 ∨ last_value aa < bb.origin) := by
    push_neg
    exact ⟨hna0, hnb0, not_lt.mp (fun hlt => absurd hcov (not_le.mpr hlt))⟩
  refine ⟨mz.toNat,
    ⟨bb.origin, bb.delta,
      (min (((aa.size - 1 : ℕ) : ℤ) - mz) ((bb.size - 1 : ℕ) : ℤ)).toNat + 1⟩,
    ?_, rfl, rfl, ?_, ?_, ?_, ?_, ?_, ?_⟩
  · rw [intersect_core_ok_of_match aa bb h, if_neg hccond, hqtrunc]
  · unfold to_index
    rw [hmz, mul_div_cancel_right₀ _ hd.ne', qtrunc_intCast]
  · unfold to_index
    rw [sub_self, zero_div]
    norm_num [qtrunc]
  · show mz.toNat +
      ((min (((aa.size - 1 : ℕ) : ℤ) - mz) ((bb.size - 1 : ℕ) : ℤ)).toNat + 1) ≤ aa.size
    omega
  · show (min (((aa.size - 1 : ℕ) : ℤ) - mz) ((bb.size - 1 : ℕ) : ℤ)).toNat + 1 ≤ bb.size
    omega
  · intro k
    unfold grid_value
    have hcast : ((mz.toNat : ℕ) : ℚ) = (mz : ℚ) := by
      exact_mod_cast congrArg (fun z : ℤ => (z : ℚ)) (Int.toNat_of_nonneg hmz0)
    push_cast
    rw [hcast, hdb]
    linear_combination -hmz
  · intro k
    rfl

/-- Helper: when the grid intersection succeeds and both slices fit in the
stored arrays, `stack` succeeds with the intersected grid and the
elementwise product of the aligned slices. -/
lemma stack_ok_of_aligned (a b : spectral_response) (ig : uniform_grid) (ma mb : ℕ)
    (hint : intersect a.grid b.grid = .ok ig)
    (htia : to_index a.grid ig.origin = ma) (htib : to_index b.grid ig.origin = mb)
    (hba : ma + ig.size ≤ a.data.length) (hbb : mb + ig.size ≤ b.data.length)
    (hva : ∀ k : ℕ, grid_value a.grid (ma + k) = grid_value ig k)
    (hvb : ∀ k : ℕ, grid_value b.grid (mb + k) = grid_value ig k) :
    ∃ r, stack a b = .ok r ∧ intersect a.grid b.grid = .ok r.grid ∧
      r.data.length = r.grid.size ∧
      ∀ k, ∀ hk : k < r.data.length, ∃ ia ib, ∃ hia2 : ia < a.data.length,
        ∃ hib2 : ib < b.data.length,
        grid_value a.grid ia = grid_value r.grid k ∧
        grid_value b.grid ib = grid_value r.grid k ∧
        r.data.get ⟨k, hk⟩ = a.data.get ⟨ia, hia2⟩ * b.data.get ⟨ib, hib2⟩ := by
  refine ⟨⟨ig, List.zipWith (fun x y => x * y)
    ((a.data.drop ma).take ig.size) ((b.data.drop mb).take ig.size)⟩, ?_, hint, ?_, ?_⟩
  · unfold stack
    rw [hint]
    show Except.ok (⟨ig, List.zipWith (fun x y => x * y)
      ((a.data.drop (to_index a.grid ig.origin)).take ig.size)
      ((b.data.drop (to_index b.grid ig.origin)).take ig.size)⟩ : spectral_response) = _
    rw [htia, htib]
  · simp only [List.length_zipWith, List.length_take, List.length_drop]
    omega
  · intro k hk
    have hk2 : k < ig.size := by
      simp only [List.length_zipWith, List.length_take, List.length_drop] at hk
      omega
    refine ⟨ma + k, mb + k, by omega, by omega, hva k, hvb k, ?_⟩
    rw [List.get_eq_getElem, List.get_eq_getElem, List.get_eq_getElem]
    rw [List.getElem_zipWith, List.getElem_take, List.getElem_drop,
      List.getElem_take, List.getElem_drop]

/-- C8: for responses whose value arrays match their grids, a phase
mismatch is propagated as `mismatched_grids` (the only failure); under a
phase match with overlapping ranges, `stack` replaces the grid by the
intersection and the values by the elementwise product of the two arrays
restricted to the intersection, pairing entries that sit at the same grid
value. -/
theorem spectral_response_stack_spec (a b : spectral_response)
    (ha : 0 < a.grid.delta) (hb : 0 < b.grid.delta)
    (hla : a.data.length = a.grid.size) (hlb : b.data.length = b.grid.size) :
    (¬ grid_match a.grid b.grid → stack a b = .error .mismatched_grids) ∧
    (grid_match a.grid b.grid → ¬ Disjoint (grid_range a.grid) (grid_range b.grid) →
      ∃ r, stack a b = .ok r ∧ intersect a.grid b.grid = .ok r.grid ∧
        r.data.length = r.grid.size ∧
        ∀ k, ∀ hk : k < r.data.length, ∃ ia ib, ∃ hia2 : ia < a.data.length,
          ∃ hib2 : ib < b.data.length,
          grid_value a.grid ia = grid_value r.grid k ∧
          grid_value b.grid ib = grid_value r.grid k ∧
          r.data.get ⟨k, hk⟩ = a.data.get ⟨ia, hia2⟩ * b.data.get ⟨ib, hib2⟩) := by
  constructor
  · intro hnm
    unfold stack
    have herr : intersect a.grid b.grid = .error .mismatched_grids := by
      unfold intersect
      split_ifs
      · exact intersect_core_mismatch _ _ (fun hm2 => hnm (grid_match_symm.mpr hm2))
      · exact intersect_core_mismatch _ _ hnm
    rw [herr]
  · intro hm hnd
    rcases le_or_lt a.grid.origin b.grid.origin with hab | hba2
    · obtain ⟨m, ig, hcore, hio, hidelta, htiaP, htibP, hsaP, hsbP, hvaP, hvbP⟩ :=
        core_result_bounds a.grid b.grid hm ha hab hnd
      have hint : intersect a.grid b.grid = .ok ig := by
        unfold intersect
        rw [if_neg (not_lt.mpr hab)]
        exact hcore
      apply stack_ok_of_aligned a b ig m 0 hint
      · rw [hio]; exact htiaP
      · rw [hio]; exact htibP
      · omega
      · omega
      · exact hvaP
      · intro k
        rw [Nat.zero_add]
        exact hvbP k
    · obtain ⟨m, ig, hcore, hio, hidelta, htiaP, htibP, hsaP, hsbP, hvaP, hvbP⟩ :=
        core_result_bounds b.grid a.grid (grid_match_symm.mp hm) hb hba2.le
          (fun hd2 => hnd hd2.symm)
      have hint : intersect a.grid b.grid = .ok ig := by
        unfold intersect
        rw [if_pos hba2]
        exact hcore
      apply stack_ok_of_aligned a b ig 0 m hint
      · rw [hio]; exact htibP
      · rw [hio]; exact htiaP
      · omega
      · omega
      · intro k
        rw [Nat.zero_add]
        exact hvbP k
      · exact hvaP

/-- Witness for C8 at two concrete overlapping responses. -/
theorem spectral_response_stack_spec_witness :
    ∃ r, stack ⟨⟨0, 1, 3⟩, [1, 2, 3]⟩ ⟨⟨1, 1, 3⟩, [4, 5, 6]⟩ = .ok r ∧
      intersect (⟨0, 1, 3⟩ : uniform_grid) ⟨1, 1, 3⟩ = .ok r.grid ∧
      r.data.length = r.grid.size ∧
      ∀ k, ∀ hk : k < r.data.length, ∃ ia ib,
        ∃ hia2 : ia < ([1, 2, 3] : List ℚ).length, ∃ hib2 : ib < ([4, 5, 6] : List ℚ).length,
        grid_value ⟨0, 1, 3⟩ ia = grid_value r.grid k ∧
        grid_value ⟨1, 1, 3⟩ ib = grid_value r.grid k ∧
        r.data.get ⟨k, hk⟩ =
          ([1, 2, 3] : List ℚ).get ⟨ia, hia2⟩ * ([4, 5, 6] : List ℚ).get ⟨ib, hib2⟩ :=
  (spectral_response_stack_spec ⟨⟨0, 1, 3⟩, [1, 2, 3]⟩ ⟨⟨1, 1, 3⟩, [4, 5, 6]⟩
      (by norm_num) (by norm_num) rfl rfl).2
    (by norm_num [grid_match, qfmod, qtrunc])
    (Set.not_disjoint_iff.mpr ⟨1, by norm_num [grid_range, last_value, grid_value],
      by norm_num [grid_range, last_value, grid_value]⟩)

/-- Helper: the validation loop only ever succeeds with the functor it was
given. -/
lemma mfi_loop_ok_val : ∀ (rest : List ℚ) (g : uniform_grid_fn) (i : ℕ) (g2 : uniform_grid_fn),
    mfi_loop g i rest = .ok g2 → g2 = g
  | [], g, i, g2 => by
    intro h
    simpa [mfi_loop] using h.symm
  | v :: rest, g, i, g2 => by
    intro h
    rw [mfi_loop] at h
    split_ifs at h with hv
    exact mfi_loop_ok_val rest g (i + 1) g2 h

/-- Helper: the validation loop succeeds exactly when every remaining value
agrees with the functor at its running index. -/
lemma mfi_loop_ok_iff : ∀ (rest : List ℚ) (g : uniform_grid_fn) (i : ℕ),
    mfi_loop g i rest = .ok g ↔
      ∀ j (h : j < rest.length), rest.get ⟨j, h⟩ = gfn_value g (i + j)
  | [], g, i => by
    simp [mfi_loop]
  | v :: rest, g, i => by
    rw [mfi_loop]
    by_cases hv : gfn_value g i = v
    · rw [if_pos hv, mfi_loop_ok_iff rest g (i + 1)]
      constructor
      · intro hall j hj
        match j with
        | 0 =>
          simpa using hv.symm
        | j + 1 =>
          have hj2 : j < rest.length := by simpa using hj
          have := hall j hj2
          have harith : i + 1 + j = i + (j + 1) := by omega
          rw [harith] at this
          simpa using this
      · intro hall j hj
        have hj2 : j + 1 < (v :: rest).length := by simp; omega
        have := hall (j + 1) hj2
        have harith : i + (j + 1) = i + 1 + j := by omega
        rw [harith] at this
        simpa using this
    · rw [if_neg hv]
      constructor
      · intro h
        simp at h
      · intro hall
        exfalso
        have h0 : 0 < (v :: rest).length := by simp
        have := hall 0 h0
        simp at this
        exact hv this.symm

/-- Helper: when some remaining value disagrees with the functor, the
validation loop reports the first disagreement, with the actual and
expected values. -/
lemma mfi_loop_first_error : ∀ (rest : List ℚ) (g : uniform_grid_fn) (i : ℕ),
    (¬ ∀ j (h : j < rest.length), rest.get ⟨j, h⟩ = gfn_value g (i + j)) →
    ∃ j, ∃ hj : j < rest.length,
      (∀ k (hk : k < rest.length), k < j → rest.get ⟨k, hk⟩ = gfn_value g (i + k)) ∧
      rest.get ⟨j, hj⟩ ≠ gfn_value g (i + j) ∧
      mfi_loop g i rest = .error ⟨i + j, rest.get ⟨j, hj⟩, gfn_value g (i + j)⟩
  | [], g, i => by
    intro h
    exfalso
    apply h
    intro j hj
    simp at hj
  | v :: rest, g, i => by
    intro h
    by_cases hv : gfn_value g i = v
    · have hrest : ¬ ∀ j (hj : j < rest.length), rest.get ⟨j, hj⟩ = gfn_value g (i + 1 + j) := by
        intro hall
        apply h
        intro j hj
        match j with
        | 0 =>
          simpa using hv.symm
        | j + 1 =>
          have hj2 : j < rest.length := by simpa using hj
          have := hall j hj2
          have harith : i + 1 + j = i + (j + 1) := by omega
          rw [harith] at this
          simpa using this
      obtain ⟨j, hj, hpre, hne, herr⟩ := mfi_loop_first_error rest g (i + 1) hrest
      have hj2 : j + 1 < (v :: rest).length := by simp; omega
      have harith : i + 1 + j = i + (j + 1) := by omega
      refine ⟨j + 1, hj2, ?_, ?_, ?_⟩
      · intro k hk hkj
        match k with
        | 0 =>
          simpa using hv.symm
        | k + 1 =>
          have hk2 : k < rest.length := by simpa using hk
          have := hpre k hk2 (by omega)
          have harith2 : i + 1 + k = i + (k + 1) := by omega
          rw [harith2] at this
          simpa using this
      · rw [← harith]
        simpa using hne
      · rw [mfi_loop, if_pos hv, herr]
        rw [← harith]
        rfl
    · have h0 : 0 < (v :: rest).length := by simp
      refine ⟨0, h0, ?_, ?_, ?_⟩
      · intro k hk hkj
        omega
      · intro he
        apply hv
        simp at he
        exact he.symm
      · rw [mfi_loop, if_neg hv]
        simp

/-- C7: constructing a `uniform_grid_fn` from at least two values succeeds
exactly when every value at position `i ≥ 2` equals `origin + i * delta`
with the origin the first value and the step the difference of the first
two; the successfully constructed functor is exactly that pair, its value
law holds at every index, and on the first violation the loop throws
`non_uniform_grid` with the first offending index, the actual and the
expected value. -/
theorem make_from_iterable_spec (v0 v1 : ℚ) (rest : List ℚ) :
    (make_from_iterable (v0 :: v1 :: rest) = .ok ⟨v0, v1 - v0⟩ ↔
      ∀ i (h : i < (v0 :: v1 :: rest).length), 2 ≤ i →
        (v0 :: v1 :: rest).get ⟨i, h⟩ = gfn_value ⟨v0, v1 - v0⟩ i) ∧
    (∀ g, make_from_iterable (v0 :: v1 :: rest) = .ok g →
      g = ⟨v0, v1 - v0⟩ ∧ ∀ i : ℕ, gfn_value g i = v0 + (i : ℚ) * (v1 - v0)) ∧
    ((¬ ∀ i (h : i < (v0 :: v1 :: rest).length), 2 ≤ i →
        (v0 :: v1 :: rest).get ⟨i, h⟩ = gfn_value ⟨v0, v1 - v0⟩ i) →
      ∃ i, ∃ hi : i < (v0 :: v1 :: rest).length, 2 ≤ i ∧
        (∀ k (hk : k < (v0 :: v1 :: rest).length), 2 ≤ k → k < i →
          (v0 :: v1 :: rest).get ⟨k, hk⟩ = gfn_value ⟨v0, v1 - v0⟩ k) ∧
        (v0 :: v1 :: rest).get ⟨i, hi⟩ ≠ gfn_value ⟨v0, v1 - v0⟩ i ∧
        make_from_iterable (v0 :: v1 :: rest) =
          .error ⟨i, (v0 :: v1 :: rest).get ⟨i, hi⟩, gfn_value ⟨v0, v1 - v0⟩ i⟩) := by
  have hshift : ∀ (gf : uniform_grid_fn),
      (∀ i (h : i < (v0 :: v1 :: rest).length), 2 ≤ i →
        (v0 :: v1 :: rest).get ⟨i, h⟩ = gfn_value gf i) ↔
      (∀ j (h : j < rest.length), rest.get ⟨j, h⟩ = gfn_value gf (2 + j)) := by
    intro gf
    constructor
    · intro hall j hj
      have h2 : j + 2 < (v0 :: v1 :: rest).length := by simp; omega
      have h3 := hall (j + 2) h2 (by omega)
      rw [show 2 + j = j + 2 by omega]
      exact h3
    · intro hall i h hi
      obtain ⟨j, rfl⟩ : ∃ j, i = j + 2 := ⟨i - 2, by omega⟩
      have hj : j < rest.length := by simp at h; omega
      have h3 := hall j hj
      rw [show 2 + j = j + 2 by omega] at h3
      exact h3
  refine ⟨?_, ?_, ?_⟩
  · rw [make_from_iterable, hshift, mfi_loop_ok_iff]
  · intro g hg
    rw [make_from_iterable] at hg
    have := mfi_loop_ok_val rest ⟨v0, v1 - v0⟩ 2 g hg
    exact ⟨this, by intro i; rw [this]; rfl⟩
  · intro hbad
    rw [hshift] at hbad
    rw [← mfi_loop_ok_iff] at hbad
    have hbad2 : ¬ ∀ j (hj : j < rest.length), rest.get ⟨j, hj⟩ =
        gfn_value ⟨v0, v1 - v0⟩ (2 + j) := by
      intro hall
      rw [← mfi_loop_ok_iff] at hall
      exact hbad hall
    obtain ⟨j, hj, hpre, hne, herr⟩ := mfi_loop_first_error rest ⟨v0, v1 - v0⟩ 2 hbad2
    have hi : j + 2 < (v0 :: v1 :: rest).length := by simp; omega
    have harith : 2 + j = j + 2 := by omega
    refine ⟨j + 2, hi, by omega, ?_, ?_, ?_⟩
    · intro k hk h2k hkj
      obtain ⟨m, rfl⟩ : ∃ m, k = m + 2 := ⟨k - 2, by omega⟩
      have hm : m < rest.length := by simp at hk; omega
      have := hpre m hm (by omega)
      have harith2 : 2 + m = m + 2 := by omega
      rw [harith2] at this
      exact this
    · rw [harith] at hne
      exact hne
    · rw [make_from_iterable, herr, harith]
      rfl

/-- Witness for C7 at the uniform list `[0, 1, 2, 3]`. -/
theorem make_from_iterable_spec_witness :
    make_from_iterable [0, 1, 2, 3] = .ok ⟨0, 1 - 0⟩ :=
  (make_from_iterable_spec 0 1 [2, 3]).1.mpr (by
    intro i h hi
    match i with
    | 2 => norm_num [gfn_value]
    | 3 => norm_num [gfn_value]
    | n + 4 => simp at h)

/-- Helper: the interior right-hand-side vector has two entries fewer than
the knot vector. -/
theorem spline_rhs_length : ∀ y : List ℚ, (spline_rhs y).length = y.length - 2
  | [] => by simp [spline_rhs]
  | [_] => by simp [spline_rhs]
  | [_, _] => by simp [spline_rhs]
  | a :: b :: c :: rest => by
    have ih := spline_rhs_length (b :: c :: rest)
    rw [spline_rhs]
    simp only [List.length_cons] at ih ⊢
    omega

/-- Helper: the forward sweep produces one pair per interior right-hand
side. -/
theorem spline_sweep_length : ∀ (c d : ℚ) (l : List ℚ), (spline_sweep c d l).length = l.length
  | _, _, [] => by simp [spline_sweep]
  | c, d, r :: rest => by
    rw [spline_sweep]
    simp only [List.length_cons]
    rw [spline_sweep_length]

/-- Helper: back substitution returns one entry per pair plus the final
boundary entry. -/
theorem spline_back_length : ∀ (ps : List (ℚ × ℚ)) (dlast : ℚ),
    (spline_back ps dlast).length = ps.length + 1
  | [], _ => by simp [spline_back]
  | (c, d) :: rest, dlast => by
    rw [spline_back]
    simp only [List.length_cons]
    rw [spline_back_length]

/-- Helper: for at least two knots, the second-derivative vector built by
`init_d2` has exactly one entry per knot. -/
theorem init_d2_length (y : List ℚ) (bc : boundary) (h : 2 ≤ y.length) :
    (init_d2 y bc).length = y.length := by
  match y with
  | [] => simp at h
  | [_] => simp at h
  | y0 :: y1 :: rest =>
    simp only [init_d2, spline_back_length, List.length_cons, spline_sweep_length,
      spline_rhs_length]
    omega

/-- Helper: the Option-indexed spline evaluation succeeds whenever the
argument is nonnegative and both knot indices it reads are stored. -/
theorem spline_eval_isSome (s : cubic_spline) (x : ℚ) (hx : 0 ≤ x)
    (hlen : s.d2.length = s.values.length)
    (hidx : ⌊x⌋.toNat + 1 < s.values.length) :
    (spline_eval s x).isSome = true := by
  have h1 : ⌊x⌋.toNat < s.d2.length := by omega
  have h2 : ⌊x⌋.toNat + 1 < s.d2.length := by omega
  have h3 : ⌊x⌋.toNat < s.values.length := by omega
  unfold spline_eval
  simp [if_neg (not_lt.mpr hx), List.getElem?_eq_getElem h1, List.getElem?_eq_getElem h2,
    List.getElem?_eq_getElem h3, List.getElem?_eq_getElem hidx]

/-- C10 (amended): for every precompute vector of length at least 2 and
every strictly positive `u`, the `angle_averaged` evaluation reads only
stored knot indices and returns a value; at `u = 0` the spline argument is
exactly `N - 1` and the evaluation reads one element past the stored
arrays. -/
theorem angle_averaged_eval_total (values : List ℚ) (h2 : 2 ≤ values.length) :
    ∀ u : ℚ, 0 < u → (angle_averaged_eval (mk_angle_averaged values) u).isSome = true := by
  intro u hu
  have hN : (2 : ℚ) ≤ (values.length : ℚ) := by exact_mod_cast h2
  have hu1 : (0 : ℚ) < 1 + u := by linarith
  have hN1 : (0 : ℚ) < (values.length : ℚ) - 1 := by linarith
  unfold angle_averaged_eval mk_angle_averaged
  simp only [sub_zero]
  have hzeq : (1 : ℚ) / (1 + u) / (1 / ((values.length : ℚ) - 1)) =
      1 / (1 + u) * ((values.length : ℚ) - 1) := by
    field_simp
  rw [hzeq]
  set z : ℚ := 1 / (1 + u) * ((values.length : ℚ) - 1) with hz
  have hz0 : 0 ≤ z := by
    rw [hz]
    positivity
  have hzlt : z < (values.length : ℚ) - 1 := by
    rw [hz]
    have hfrac : 1 / (1 + u) < 1 := by
      rw [div_lt_one hu1]
      linarith
    calc 1 / (1 + u) * ((values.length : ℚ) - 1)
        < 1 * ((values.length : ℚ) - 1) := by
          exact mul_lt_mul_of_pos_right hfrac hN1
      _ = (values.length : ℚ) - 1 := one_mul _
  apply spline_eval_isSome _ _ hz0
  · simp only [mk_cubic_spline]
    rw [init_d2_length values _ h2]
  · have hfl : ⌊z⌋ < (values.length : ℤ) - 1 := by
      rw [Int.floor_lt]
      push_cast
      exact hzlt
    have hfl0 : 0 ≤ ⌊z⌋ := Int.floor_nonneg.mpr hz0
    simp only [mk_cubic_spline]
    omega

/-- Witness for C10 at the two-point precompute and `u = 1`. -/
theorem angle_averaged_eval_total_witness :
    (angle_averaged_eval (mk_angle_averaged [0, 1]) 1).isSome = true :=
  angle_averaged_eval_total [0, 1] (by norm_num) 1 (by norm_num)

/-- C10 (counterexample): at `u = 0` the spline argument equals
`N - 1 = 1` and the evaluation reads index `N = 2` of both stored arrays,
out of bounds, so the Option-indexed result is `none`. -/
theorem angle_averaged_eval_zero_counterexample :
    angle_averaged_eval (mk_angle_averaged [0, 1]) 0 = none := by
  norm_num [angle_averaged_eval, mk_angle_averaged, spline_eval, mk_cubic_spline,
    init_d2, spline_rhs, spline_sweep, spline_back]

/-- Helper: the two evaluation-time constants differ, because the 1-D path
uses the full-precision Kolmogorov literal while the DCT path uses the
rounded literal `9.69e-3`. -/
lemma base_c_ne_grid_2d_c : weight_function_base_c ≠ weight_function_grid_2d_c := by
  intro h
  have key : (Kolmogorov_Cn2_scale * (16 * 1e13) - 9.69e-3 * 16 * 1e13) * (Real.pi * Real.pi) = 0 := by
    unfold weight_function_base_c weight_function_grid_2d_c at h
    ring_nf at h ⊢
    linarith
  rcases mul_eq_zero.mp key with h1 | h2
  · rw [Kolmogorov_Cn2_scale] at h1
    norm_num at h1
  · exact Real.pi_ne_zero (mul_self_eq_zero.mp h2)

/-- C1 (counterexample): the DCT-based `weight_function_grid_2d` does not
scale by `16 * pi^2 * Kolmogorov_Cn2_scale * 1e13` with the full-precision
literal; its constant is a different exact value. -/
theorem grid_2d_constant_counterexample :
    weight_function_grid_2d_c ≠ Kolmogorov_Cn2_scale * (16 * 1e13) * Real.pi * Real.pi :=
  Ne.symm base_c_ne_grid_2d_c

/-- C1 (amended): the 1-D path multiplies by
`16 * pi^2 * Kolmogorov_Cn2_scale * 1e13` with the full-precision literal,
while the DCT path multiplies by `16 * pi^2 * 9.69e-3 * 1e13` with the
rounded literal; the two constants are not the same value. -/
theorem weight_function_constants_spec :
    weight_function_base_c = 16 * Real.pi ^ 2 * Kolmogorov_Cn2_scale * 1e13 ∧
    weight_function_grid_2d_c = 16 * Real.pi ^ 2 * (9.69e-3 : ℝ) * 1e13 ∧
    weight_function_base_c ≠ weight_function_grid_2d_c :=
  ⟨by unfold weight_function_base_c; ring,
   by unfold weight_function_grid_2d_c; ring,
   base_c_ne_grid_2d_c⟩

/-- C2: the radial integrand of the 1-D weight-function precompute, at
`x = (1-z)/z`, is 0 at `u = 0` and `u = inf`, equals
`u^(4/3) * SF.regular(u^2) * AF(x*u)` for `0 < u < 1`, and for `u ≥ 1`
equals `u^(-8/3) * SF(u^2) * AF(x*u)` short-circuited to 0 when `u^(-8/3)`
evaluates to 0. -/
theorem radial_integrand_spec :
    ∀ (sfreg sf af : ℝ → ℝ) (z : ℝ),
    radial_integrand sfreg sf af .inf ((1 - z) / z) = 0 ∧
    radial_integrand sfreg sf af (.fin 0) ((1 - z) / z) = 0 ∧
    (∀ u : ℝ, 0 < u → u < 1 →
      radial_integrand sfreg sf af (.fin u) ((1 - z) / z) =
        u ^ ((4 : ℝ) / 3) * sfreg (u * u) * af (((1 - z) / z) * u)) ∧
    (∀ u : ℝ, 1 ≤ u →
      radial_integrand sfreg sf af (.fin u) ((1 - z) / z) =
        if u ^ (-((8 : ℝ) / 3)) = 0 then 0
        else u ^ (-((8 : ℝ) / 3)) * sf (u * u) * af (((1 - z) / z) * u)) := by
  intro sfreg sf af z
  refine ⟨rfl, by simp [radial_integrand], ?_, ?_⟩
  · intro u hu h1
    simp [radial_integrand, hu.ne', h1]
  · intro u h1
    have h0 : u ≠ 0 := by linarith
    have hlt : ¬ u < 1 := by linarith
    simp only [radial_integrand, if_neg h0, if_neg hlt]

/-- Witness for C2 at the constant filters and `z = 1`, `u = 1/2`. -/
theorem radial_integrand_spec_witness :
    (0 : ℝ) < 1 / 2 ∧ (1 : ℝ) / 2 < 1 ∧
    radial_integrand (fun _ => 1) (fun _ => 1) (fun _ => 1) (.fin (1 / 2)) ((1 - 1) / 1) =
      ((1 : ℝ) / 2) ^ ((4 : ℝ) / 3) * 1 * 1 :=
  ⟨by norm_num, by norm_num,
   (radial_integrand_spec (fun _ => 1) (fun _ => 1) (fun _ => 1) 1).2.2.1 (1 / 2)
     (by norm_num) (by norm_num)⟩

/-- C9: at altitude 0 the 1-D weight function evaluates to 0 for every
precomputed spline, and the DCT-based grid evaluation returns a zero tensor
of the configured shape for every kernel and transform. -/
theorem weight_function_zero_altitude :
    (∀ (lambda aperture_scale origin delta : ℝ) (wf : ℝ → ℝ),
      weight_function_eval lambda aperture_scale origin delta wf 0 = 0) ∧
    (∀ (lambda aperture_scale grid_step : ℝ) (nx ny : ℕ)
      (kern : ℝ → ℝ → ℝ → ℝ) (dct : (ℕ → ℕ → ℝ) → ℕ → ℕ → ℝ),
      (weight_function_grid_2d_eval lambda aperture_scale grid_step nx ny kern dct 0).shape
        = (nx, ny) ∧
      ∀ i j, (weight_function_grid_2d_eval lambda aperture_scale grid_step nx ny kern dct 0).entry
        i j = 0) := by
  constructor
  · intro lambda aperture_scale origin delta wf
    unfold weight_function_eval weight_function_base_eval
    rw [Real.zero_rpow (by norm_num)]
    ring
  · intro lambda aperture_scale grid_step nx ny kern dct
    constructor
    · simp [weight_function_grid_2d_eval]
    · intro i j
      simp [weight_function_grid_2d_eval]

/-- C3 (amended): the polychromatic filter evaluates to 0 whenever the last
grid value is at most `|x|`, and to
`(sin(pi * carrier * |x|) * real(d) - cos(pi * carrier * |x|) * imag(d))^2`
whenever `|x|` is strictly below the last grid value. -/
theorem poly_eval_spec :
    ∀ (p : polyf) (x : ℝ),
    (rlast p.grid ≤ |x| → poly_eval p x = 0) ∧
    (|x| < rlast p.grid → poly_eval p x = poly_claim_formula p x) := by
  intro p x
  constructor
  · intro h
    simp only [poly_eval]
    rw [if_pos h]
  · intro h
    simp only [poly_eval, poly_claim_formula]
    rw [if_neg (not_le.mpr h)]
    rw [show |x| * (Real.pi * p.carrier) = Real.pi * p.carrier * |x| by ring]

/-- Witness for C3 at the concrete filter, with one query at or beyond the
last grid value and one inside. -/
theorem poly_eval_spec_witness :
    poly_eval poly_example 2 = 0 ∧
    poly_eval poly_example (1 / 2) = poly_claim_formula poly_example (1 / 2) :=
  ⟨(poly_eval_spec poly_example 2).1
     (by norm_num [poly_example, poly_of_delta, rlast]),
   (poly_eval_spec poly_example (1 / 2)).2
     (by norm_num [poly_example, poly_of_delta, rlast, abs_lt])⟩

/-- C3 (counterexample): at `x = 1` the query lies inside the frequency
grid of `poly_example` (its last grid value is 1), yet the evaluation
returns 0 while the claimed formula yields `1/4`. -/
theorem poly_eval_boundary_counterexample :
    ¬ poly_outside poly_example 1 ∧
    poly_eval poly_example 1 ≠ poly_claim_formula poly_example 1 := by
  constructor
  · unfold poly_outside poly_example poly_of_delta rlast
    norm_num
  · have h1 : poly_eval poly_example 1 = 0 := by
      unfold poly_eval poly_example poly_of_delta rlast
      norm_num
    have h2 : poly_claim_formula poly_example 1 = 1 / 4 := by
      unfold poly_claim_formula poly_example poly_of_delta
      norm_num [Real.sin_pi, Real.cos_pi]
    rw [h1, h2]
    norm_num

/-- C4 (amended): after `normalize()` on a filter produced by the delta
constructor chain with positive equivalent wavelength and positive carrier,
the equivalent wavelength equals 1 and the carrier is positive, while the
grid origin equals 0 (so it is not positive). -/
theorem poly_normalize_spec :
    ∀ (delta : ℝ) (size : ℕ) (re im : ℝ → ℝ) (carrier eq : ℝ),
    0 < eq → 0 < carrier →
    (poly_normalize (poly_of_delta delta size re im carrier eq)).equiv_lambda = 1 ∧
    0 < (poly_normalize (poly_of_delta delta size re im carrier eq)).carrier ∧
    (poly_normalize (poly_of_delta delta size re im carrier eq)).grid.origin = 0 := by
  intro delta size re im carrier eq heq hcarrier
  unfold poly_normalize poly_of_delta
  refine ⟨div_self heq.ne', div_pos hcarrier heq, zero_mul _⟩

/-- Witness for C4 at a concrete filter. -/
theorem poly_normalize_spec_witness :
    (poly_normalize (poly_of_delta 1 2 (fun _ => 0) (fun _ => 0) 1 2)).equiv_lambda = 1 ∧
    0 < (poly_normalize (poly_of_delta 1 2 (fun _ => 0) (fun _ => 0) 1 2)).carrier ∧
    (poly_normalize (poly_of_delta 1 2 (fun _ => 0) (fun _ => 0) 1 2)).grid.origin = 0 :=
  poly_normalize_spec 1 2 (fun _ => 0) (fun _ => 0) 1 2 (by norm_num) (by norm_num)

/-- C4 (counterexample): for a filter built by the constructor chain the
grid origin after `normalize()` is `0 * lambda_0 = 0`, which is not
positive. -/
theorem poly_normalize_origin_counterexample :
    (poly_normalize poly_example_2).grid.origin = 0 ∧
    ¬ 0 < (poly_normalize poly_example_2).grid.origin := by
  constructor
  · unfold poly_example_2 poly_normalize poly_of_delta
    norm_num
  · unfold poly_example_2 poly_normalize poly_of_delta
    norm_num

/-- C5: with `y = [0, 1]` and the default natural boundary, the cubic
spline reproduces `y_0` at the knot 0, but evaluating at the last knot
`x = N - 1 = 1` reads `values_(2)` and `d2_(2)`, one past the end of both
stored arrays, so the Option-indexed evaluation is `none` instead of the
`y_1` the repository test `test_spline2` expects. -/
theorem cubic_spline_last_knot_out_of_bounds :
    spline_eval (mk_cubic_spline [0, 1] (.second_order 0 0)) 0 = some 0 ∧
    spline_eval (mk_cubic_spline [0, 1] (.second_order 0 0)) 1 = none := by
  constructor
  · norm_num [spline_eval, mk_cubic_spline, init_d2, spline_rhs, spline_sweep, spline_back]
  · norm_num [spline_eval, mk_cubic_spline, init_d2, spline_rhs, spline_sweep, spline_back]

end Weif
